import Mathlib

/-!
Verification of the modality-aware embedding orchestration engine of
`worker-infinity-embedding` against its natural-language specification.

The Python sources are shallowly embedded: pure string manipulation is
modelled on `List Char`, the embedding backend (the remote Infinity HTTP
server) is an explicit oracle parameter `Payload → Option (BackendResp β)`
(`none` models a raised `httpx` error / non-2xx status), raised Python
exceptions become `Except` / explicit error values, and every function
additionally reports the list of backend requests it issued (its I/O trace).
-/

namespace WorkerEmb

/-! ## Elementary string machinery

Python's `str.startswith`, `str.lower` and the substring operator `in`
are modelled on character lists so that everything reduces structurally. -/

/-- Model of Python `s.startswith(pre)` on character lists. -/
def startsWithList : List Char → List Char → Bool
  | _, [] => true
  | [], _ :: _ => false
  | a :: s, b :: p => a == b && startsWithList s p

/-- Model of Python `pat in hay` (contiguous substring test). -/
def containsSub (hay pat : List Char) : Bool :=
  match hay with
  | [] => decide (pat = [])
  | _ :: t => startsWithList hay pat || containsSub t pat

/-- ASCII lower-casing of one character, the effect of Python `str.lower`
on the characters relevant to extension matching. -/
def asciiLower (c : Char) : Char :=
  if 65 ≤ c.toNat ∧ c.toNat ≤ 90 then Char.ofNat (c.toNat + 32) else c

/-- Model of Python `s.startswith(pre)` on strings. -/
def pyStartsWith (s pre : String) : Bool :=
  startsWithList s.toList pre.toList

/-- Model of Python `s.lower()`. -/
def pyLower (s : String) : String :=
  String.mk (s.toList.map asciiLower)

/-! ## Modality classifier (`src/utils.py`, `src/handler_old.py`) -/

/-- The fixed recognized image extensions of `utils.is_image_data`
(`src/utils.py`, line 31). -/
def image_extensions : List String :=
  [".jpg", ".jpeg", ".png", ".gif", ".bmp", ".webp", ".svg", ".tiff", ".ico"]

/-- `utils.is_image_data` (`src/utils.py`, lines 12-34): a string is image
data when it starts with `data:image/`, or starts with `http://`/`https://`
and some recognized extension occurs in its lower-cased form. -/
def is_image_data (data : String) : Bool :=
  if pyStartsWith data "data:image/" then true
  else if pyStartsWith data "http://" || pyStartsWith data "https://" then
    image_extensions.any (fun ext => containsSub (pyLower data).toList ext.toList)
  else false

/-- `utils.detect_modalities_per_item` (`src/utils.py`, lines 37-49). -/
def detect_modalities_per_item (input_data : List String) : List String :=
  input_data.map (fun item => if is_image_data item then "image" else "text")

/-- Python `Union[str, List[str]]` input shape of `detect_modality`. -/
inductive StrOrList where
  | str (s : String)
  | list (l : List String)
deriving DecidableEq

/-- The auto-detection part of `handler_old.detect_modality`
(`src/handler_old.py`, lines 39-44): a single string is classified by
`is_image_data`; a non-empty list by its first element only; an empty list
is text. -/
def detectAuto : StrOrList → String
  | .str s => if is_image_data s then "image" else "text"
  | .list [] => "text"
  | .list (h :: _) => if is_image_data h then "image" else "text"

/-- `handler_old.detect_modality` (`src/handler_old.py`, lines 22-44).
Python checks `if explicit_modality:` — a truthiness test, so the empty
string behaves like an absent modality. -/
def detect_modality (input_data : StrOrList) (explicit_modality : Option String) : String :=
  match explicit_modality with
  | some m => if m = "" then detectAuto input_data else m
  | none => detectAuto input_data

/-! ## Batch partitioner (`src/utils.py` `group_by_modality`;
the grouping loop of `InfinityClient.get_embeddings_mixed` in
`src/infinity_client.py`, lines 104-108, is character-for-character the
same loop, so one embedding serves both). -/

/-- The grouping loop `for idx, (data, mod) in enumerate(zip(...))`,
started at index `k`.  First component: text items, second: image items,
each as `(original_index, data)` pairs in encounter order. -/
def groupAux : Nat → List (α × String) → List (Nat × α) × List (Nat × α)
  | _, [] => ([], [])
  | k, (d, m) :: rest =>
    let p := groupAux (k + 1) rest
    if m == "image" then (p.1, (k, d) :: p.2) else ((k, d) :: p.1, p.2)

/-- `utils.group_by_modality` (`src/utils.py`, lines 52-72). -/
def group_by_modality (input_data : List α) (modalities : List String) :
    List (Nat × α) × List (Nat × α) :=
  groupAux 0 (input_data.zip modalities)

/-- The enumerated batch `[(k, d), (k+1, d'), ...]`: the original items
paired with their positions, the reference order for subsequence claims. -/
def enumPairs : Nat → List (α × String) → List (Nat × α)
  | _, [] => []
  | k, (d, _) :: rest => (k, d) :: enumPairs (k + 1) rest

/-! ## Infinity client (`src/infinity_client.py`)

The remote Infinity server is an oracle `Payload → Option (BackendResp β)`:
`some r` models a 2xx JSON response, `none` models a raised
`httpx.HTTPError` / non-success status (which `get_embeddings` converts to
an `InfinityError`).  `β` is the opaque type of embedding vectors.
Every function also returns the list of HTTP requests it issued. -/

/-- The JSON body `get_embeddings` POSTs to `/embeddings`
(`src/infinity_client.py`, lines 49-56): the `modality` key is present
only when the requested modality is exactly `"image"`. -/
structure Payload where
  model : String
  input : List String
  encoding_format : String
  modality : Option String
deriving DecidableEq

/-- Payload construction of `InfinityClient.get_embeddings`. -/
def mkPayload (model : String) (input : List String) (modality : String) : Payload :=
  { model := model, input := input, encoding_format := "float",
    modality := if modality == "image" then some modality else none }

/-- One element of the backend response's `data` array
(an OpenAI embedding object). -/
structure Entry (β : Type) where
  obj : String
  embedding : β
  index : Nat
deriving DecidableEq

/-- A successful backend `/embeddings` JSON response. -/
structure BackendResp (β : Type) where
  data : List (Entry β)
  prompt_tokens : Nat
  total_tokens : Nat
deriving DecidableEq

/-- `InfinityClient.get_embeddings` (`src/infinity_client.py`,
lines 27-72): build the payload, POST it, return the parsed response or
raise `InfinityError`.  The second component is the issued request. -/
def get_embeddings (backend : Payload → Option (BackendResp β))
    (input_data : List String) (model : String) (modality : String) :
    Except String (BackendResp β) × List Payload :=
  match backend (mkPayload model input_data modality) with
  | some r => (.ok r, [mkPayload model input_data modality])
  | none => (.error "Failed to connect to Infinity server",
      [mkPayload model input_data modality])

/-- The merged response of `get_embeddings_mixed`
(`src/infinity_client.py`, lines 133-141).  `data` slots are `Option`s
because the merge buffer starts as `[{}] * len(input_data)`: `none`
models a never-assigned `{}` slot. -/
structure MixedResp (β : Type) where
  object : String
  data : List (Option (Entry β))
  model : String
  prompt_tokens : Nat
  total_tokens : Nat
deriving DecidableEq

/-- `embedding_data = result["data"][result_idx].copy();
embedding_data["index"] = original_idx`. -/
def setIndex (e : Entry β) (i : Nat) : Entry β :=
  { e with index := i }

/-- The inner merge loop of `get_embeddings_mixed`
(`src/infinity_client.py`, lines 127-131) for one group: walk the group's
original indices together with the group's response entries, scattering
each (index-rewritten) entry into the merge buffer.  Running out of
response entries, or an out-of-range original index, is a Python
`IndexError`. -/
def scatter : List (Entry β) → List Nat → List (Option (Entry β)) →
    Except String (List (Option (Entry β)))
  | _, [], merged => .ok merged
  | [], _ :: _, _ => .error "IndexError: list index out of range"
  | e :: es, oi :: rest, merged =>
    if oi < merged.length then
      scatter es rest (merged.set oi (some (setIndex e oi)))
    else .error "IndexError: list assignment index out of range"

/-- The task list of `get_embeddings_mixed` (`src/infinity_client.py`,
lines 110-121): one `("text", items)` task if any text item exists, then
one `("image", items)` task if any image item exists. -/
def tasksFor (text_items image_items : List (Nat × String)) :
    List (String × List (Nat × String)) :=
  (if text_items.isEmpty then [] else [("text", text_items)]) ++
  (if image_items.isEmpty then [] else [("image", image_items)])

/-- `await asyncio.gather(*tasks)`: run each group's `get_embeddings`
call; the first failure fails the whole batch. -/
def gatherResults (backend : Payload → Option (BackendResp β)) (model : String) :
    List (String × List (Nat × String)) → Except String (List (BackendResp β))
  | [] => .ok []
  | (mod, items) :: rest =>
    match (get_embeddings backend (items.map Prod.snd) model mod).1 with
    | .error e => .error e
    | .ok r =>
      match gatherResults backend model rest with
      | .error e => .error e
      | .ok rs => .ok (r :: rs)

/-- The outer merge loop `for result, (modality, indices) in
zip(results, task_metadata)` (`src/infinity_client.py`, lines 127-131). -/
def mergeAll : List (BackendResp β) → List (List Nat) → List (Option (Entry β)) →
    Except String (List (Option (Entry β)))
  | _, [], merged => .ok merged
  | [], _ :: _, merged => .ok merged
  | r :: rs, idxs :: rest, merged =>
    match scatter r.data idxs merged with
    | .error e => .error e
    | .ok m => mergeAll rs rest m

/-- The tail of `get_embeddings_mixed` after the `asyncio.gather` await:
merge the per-group results into the `[{}] * len(input_data)` buffer and
build the final response dict (`src/infinity_client.py`, lines 123-141).
`usage.prompt_tokens` and `usage.total_tokens` are both set to
`len(input_data)` by the source. -/
def mixedAfterGather (input_len : Nat) (model : String)
    (metaIdxs : List (List Nat)) (gathered : Except String (List (BackendResp β)))
    (calls : List Payload) : Except String (MixedResp β) × List Payload :=
  match gathered with
  | .error e => (.error e, calls)
  | .ok results =>
    match mergeAll results metaIdxs (List.replicate input_len none) with
    | .error e => (.error e, calls)
    | .ok merged =>
      (.ok { object := "list", data := merged, model := model,
             prompt_tokens := input_len, total_tokens := input_len }, calls)

/-- `InfinityClient.get_embeddings_mixed` (`src/infinity_client.py`,
lines 74-141).  The grouping loop of lines 104-108 is the same loop as
`utils.group_by_modality`, so the shared embedding `group_by_modality` is
used.  Returns the result (or the first raised error) together with the
list of backend requests issued. -/
def get_embeddings_mixed (backend : Payload → Option (BackendResp β))
    (input_data : List String) (model : String) (modalities : List String) :
    Except String (MixedResp β) × List Payload :=
  if input_data.length ≠ modalities.length then
    (.error "input_data and modalities must have same length", [])
  else
    mixedAfterGather input_data.length model
      ((tasksFor (group_by_modality input_data modalities).1
          (group_by_modality input_data modalities).2).map (fun t => t.2.map Prod.fst))
      (gatherResults backend model
        (tasksFor (group_by_modality input_data modalities).1
          (group_by_modality input_data modalities).2))
      ((tasksFor (group_by_modality input_data modalities).1
          (group_by_modality input_data modalities).2).map
        (fun t => mkPayload model (t.2.map Prod.snd) t.1))

/-! ## Claim C1: order-preserving merge -/

/-- Specification-side description of the backend entry belonging to
original position `p` of a mixed batch: find `p`'s modality group, find
`p`'s rank within that group, and take the corresponding entry of the
backend's response to that group's request, with its `index` field
rewritten to `p`. -/
def expectedEntry (backend : Payload → Option (BackendResp β))
    (input_data modalities : List String) (model : String) (p : Nat) :
    Option (Entry β) :=
  match backend (mkPayload model
      ((if modalities.getD p "" == "image"
        then (group_by_modality input_data modalities).2
        else (group_by_modality input_data modalities).1).map Prod.snd)
      (if modalities.getD p "" == "image" then "image" else "text")) with
  | none => none
  | some r =>
    (r.data[((if modalities.getD p "" == "image"
        then (group_by_modality input_data modalities).2
        else (group_by_modality input_data modalities).1).map Prod.fst).indexOf p]?).map
      (fun e => setIndex e p)

/-- The item that was submitted to the backend at `p`'s rank within `p`'s
modality group. -/
def submittedItemFor (input_data modalities : List String) (p : Nat) :
    Option String :=
  ((if modalities.getD p "" == "image"
      then (group_by_modality input_data modalities).2
      else (group_by_modality input_data modalities).1).map Prod.snd)[((if modalities.getD p "" == "image"
      then (group_by_modality input_data modalities).2
      else (group_by_modality input_data modalities).1).map Prod.fst).indexOf p]?

/-- A concrete demonstration backend used to instantiate the universally
quantified theorems: echoes one entry per submitted item (embedding =
item length) and reports usage `7`. -/
def demoBackend : Payload → Option (BackendResp Nat) :=
  fun pl => some ⟨pl.input.map (fun s => ⟨"embedding", s.length, 0⟩), 7, 7⟩

/-! ## Handler (`src/handler.py`, `src/utils.py` `create_error_response`) -/

/-- The default model name (`src/handler.py`, line 14, with the
`MODEL_NAME` environment variable unset). -/
def DEFAULT_MODEL : String := "patrickjohncyh/fashion-clip"

/-- JSON value of the `input` field of an embeddings request (the shapes
the handler accepts). -/
inductive JVal where
  | jstr (s : String)
  | jlist (l : List String)
deriving DecidableEq

/-- Python truthiness of the `input` field value (`if not input_data:`):
the empty string and the empty list are falsy; an absent/`None` field is
modelled by `Option.none` at the call site. -/
def jfalsy : JVal → Bool
  | .jstr s => s == ""
  | .jlist l => l.isEmpty

/-- `isinstance(input_data, str)` wrapping: a bare string becomes a
one-element list (`src/handler.py`, lines 96-97). -/
def toListInput : JVal → List String
  | .jstr s => [s]
  | .jlist l => l

/-- The error dict `{"error": {"message", "type", "code"}}` built by
`utils.create_error_response` (`src/utils.py`, lines 75-93). -/
structure ErrResp where
  message : String
  type_ : String
  code : Nat
deriving DecidableEq

/-- `utils.create_error_response`; its Python defaults are
`error_type="BadRequestError"`, `code=400`, spelled out at call sites. -/
def create_error_response (message : String) (error_type : String) (code : Nat) : ErrResp :=
  ⟨message, error_type, code⟩

/-- Return value of the handler's embeddings route: `[result]` on success
(single-modality backend passthrough, or mixed merge), or an error dict. -/
inductive HandlerRet (β : Type) where
  | okSingle (r : BackendResp β)
  | okMixed (r : MixedResp β)
  | err (e : ErrResp)
deriving DecidableEq

/-- The auto-detect arm of the embeddings route (`src/handler.py`,
lines 106-121): detect per item; one backend call if all detected
modalities agree, otherwise the mixed path.  A raised `InfinityError` is
converted by `async_handler`'s first `except` clause (lines 45-46) into
`create_error_response(str(e), "InfinityError")`. -/
def handleAuto (backend : Payload → Option (BackendResp β))
    (model : String) (input_data : List String) : HandlerRet β × List Payload :=
  if (detect_modalities_per_item input_data).dedup.length == 1 then
    match get_embeddings backend input_data model
        ((detect_modalities_per_item input_data).headD "text") with
    | (.ok r, calls) => (.okSingle r, calls)
    | (.error msg, calls) => (.err (create_error_response msg "InfinityError" 400), calls)
  else
    match get_embeddings_mixed backend input_data model
        (detect_modalities_per_item input_data) with
    | (.ok r, calls) => (.okMixed r, calls)
    | (.error msg, calls) => (.err (create_error_response msg "InfinityError" 400), calls)

/-- The explicit/auto dispatch of the embeddings route (`src/handler.py`,
lines 99-121).  `if explicit_modality:` is a truthiness test, so an empty
modality string falls through to auto-detection. -/
def handleEmbInput (backend : Payload → Option (BackendResp β))
    (model : String) (input_data : List String) (modality? : Option String) :
    HandlerRet β × List Payload :=
  match modality? with
  | some em =>
    if em == "" then handleAuto backend model input_data
    else
      match get_embeddings backend input_data model em with
      | (.ok r, calls) => (.okSingle r, calls)
      | (.error msg, calls) => (.err (create_error_response msg "InfinityError" 400), calls)
  | none => handleAuto backend model input_data

/-- The `/v1/embeddings` branch of `handle_openai_route`
(`src/handler.py`, lines 86-124): missing or falsy `input` (including the
empty batch `[]`) is rejected before any client call. -/
def handle_embeddings (backend : Payload → Option (BackendResp β))
    (model? : Option String) (input? : Option JVal) (modality? : Option String) :
    HandlerRet β × List Payload :=
  match input? with
  | none =>
    (.err (create_error_response "Missing \x27input\x27 field in openai_input"
      "BadRequestError" 400), [])
  | some inputv =>
    if jfalsy inputv then
      (.err (create_error_response "Missing \x27input\x27 field in openai_input"
        "BadRequestError" 400), [])
    else
      handleEmbInput backend (model?.getD DEFAULT_MODEL) (toListInput inputv) modality?

/-- The exceptional outcomes `async_handler` (`src/handler.py`,
lines 35-52) can observe from its body. -/
inductive PyOutcome (β : Type) where
  | ret (r : HandlerRet β)
  | infinityError (msg : String)
  | otherExc (typeName msg : String)
deriving DecidableEq

/-- The `try/except` wrapper of `async_handler` (`src/handler.py`,
lines 45-52): `InfinityError` becomes
`create_error_response(str(e), "InfinityError")`, any other exception
becomes `create_error_response(f"Unexpected error: {e}", type(e).__name__)`
— in both clauses `code` is left at its default `400`. -/
def async_handler_result (outcome : PyOutcome β) : HandlerRet β :=
  match outcome with
  | .ret r => r
  | .infinityError msg => .err (create_error_response msg "InfinityError" 400)
  | .otherExc typeName msg =>
    .err (create_error_response ("Unexpected error: " ++ msg) typeName 400)

/-! ## Image validation (`src/multimodal_utils.py`)

The PIL/base64/HTTP layers are abstracted into decoding oracles: `none`
models a raised exception, which the source catches and converts into the
documented `ValueError`s.  Pixel content is opaque (`Img.content`). -/

/-- A PIL image, abstracted to its mode string and an opaque content id. -/
structure Img where
  mode : String
  content : Nat
deriving DecidableEq

/-- `_ensure_rgb` (`src/multimodal_utils.py`, lines 11-24). -/
def _ensure_rgb (img : Img) : Img :=
  if img.mode ≠ "RGB" then { img with mode := "RGB" } else img

/-- `_is_url` (`src/multimodal_utils.py`, lines 27-29). -/
def _is_url (text : String) : Bool :=
  pyStartsWith text "http://" || pyStartsWith text "https://"

/-- Decoding oracles abstracting `base64.b64decode`, `PIL.Image.open` +
`img.load()`, and the HTTP GET body: `none` models a raised exception /
failed request. -/
structure ImgOracles where
  b64decode : String → Option (List Nat)
  imageOpen : List Nat → Option Img
  download : String → Option (List Nat)

/-- The anchored Python regex match
`re.match(r"data:image/[^;]+;base64,(.+)", data)` of `_is_base64_image`
(`src/multimodal_utils.py`, line 79): a non-empty semicolon-free subtype,
then `;base64,`, then a non-empty first-line payload (an unescaped `.`
does not match a newline; `re.match` anchors only the start).  Returns
capture group 1. -/
def dataUriMatch (data : String) : Option String :=
  if pyStartsWith data "data:image/" then
    if (data.toList.drop 11).takeWhile (fun c => c ≠ ';') = [] then none
    else
      match (data.toList.drop 11).dropWhile (fun c => c ≠ ';') with
      | ';' :: r2 =>
        if startsWithList r2 "base64,".toList then
          if (r2.drop 7).takeWhile (fun c => c ≠ '\n') = [] then none
          else some (String.mk ((r2.drop 7).takeWhile (fun c => c ≠ '\n')))
        else none
      | _ => none
  else none

/-- `_is_base64_image` (`src/multimodal_utils.py`, lines 66-101): strip
the data-URI prefix via the fixed pattern when the string starts with
`data:` (no match ⇒ `None`), otherwise treat the whole string as raw
base64; decode; open as image; convert to RGB; every raised exception is
caught and turned into `None`. -/
def _is_base64_image (o : ImgOracles) (data : String) : Option Img :=
  match (if pyStartsWith data "data:" then dataUriMatch data else some data) with
  | none => none
  | some payload =>
    match o.b64decode payload with
    | none => none
    | some bytes =>
      match o.imageOpen bytes with
      | none => none
      | some img => some (_ensure_rgb img)

/-- The duck-typed item union accepted by the validators. -/
inductive Item where
  | str (s : String)
  | bytes (b : List Nat)
  | pilImage (img : Img)
deriving DecidableEq

/-- Python `str()` of a modelled item; `str()` of bytes or of a PIL image
never raises, so text conversion always succeeds for these shapes. -/
def pyStr : Item → String
  | .str s => s
  | .bytes b => "bytes:" ++ toString b.length
  | .pilImage img => "PILImage:" ++ img.mode

/-- The recoverable Python exception classes raised by the validators. -/
inductive PyErr where
  | valueError (msg : String)
  | notImplementedError (msg : String)
deriving DecidableEq

/-- `validate_text_item` (`src/multimodal_utils.py`, lines 104-116). -/
def validate_text_item (item : Item) : Except PyErr String :=
  match item with
  | .str s => .ok s
  | .bytes b => .ok (pyStr (.bytes b))
  | .pilImage img => .ok (pyStr (.pilImage img))

/-- The fixed not-an-image message of `validate_image_item`
(`src/multimodal_utils.py`, lines 159-162). -/
def invalidImageFormatMsg : String :=
  "String is not a valid image format (must be URL starting with http:// or https://, or base64-encoded image with \x27data:image/...\x27 prefix)"

/-- `validate_image_item` (`src/multimodal_utils.py`, lines 119-167);
the dynamic `{type(e).__name__}: {e}` suffixes of the download/bytes
messages are abstracted away. -/
def validate_image_item (o : ImgOracles) (hasClient : Bool) (item : Item) :
    Except PyErr Img :=
  match item with
  | .pilImage img => .ok (_ensure_rgb img)
  | .bytes b =>
    match o.imageOpen b with
    | some img => .ok (_ensure_rgb img)
    | none => .error (.valueError "Failed to decode image from bytes")
  | .str s =>
    if _is_url s then
      if hasClient then
        match o.download s with
        | none => .error (.valueError "Failed to download image from URL")
        | some bs =>
          match o.imageOpen bs with
          | none => .error (.valueError "Failed to decode image from URL")
          | some img => .ok (_ensure_rgb img)
      else .error (.valueError "HTTP client required for downloading images from URLs")
    else
      match _is_base64_image o s with
      | some img => .ok img
      | none => .error (.valueError invalidImageFormatMsg)

/-- The fixed audio message of `validate_item_for_modality`
(`src/multimodal_utils.py`, lines 193-196). -/
def audioNotImplementedMsg : String :=
  "Audio modality is not yet implemented. Currently supported modalities: \x27text\x27, \x27image\x27"

/-- The unknown-modality message of `validate_item_for_modality`
(`src/multimodal_utils.py`, lines 198-201). -/
def invalidModalityMsg (modality : String) : String :=
  "Invalid modality: \x27" ++ modality ++ "\x27. Supported modalities: \x27text\x27, \x27image\x27, \x27audio\x27 (not yet implemented)"

/-- A validated, backend-ready payload. -/
inductive Validated where
  | text (s : String)
  | image (img : Img)
deriving DecidableEq

/-- The index-annotating re-raise `raise type(e)(f"Item at index {index}:
{e}")` (`src/multimodal_utils.py`, lines 202-204): the exception class is
preserved, the message is prefixed. -/
def addIndex (index : Nat) : PyErr → PyErr
  | .valueError m => .valueError ("Item at index " ++ toString index ++ ": " ++ m)
  | .notImplementedError m =>
    .notImplementedError ("Item at index " ++ toString index ++ ": " ++ m)

/-- `validate_item_for_modality` (`src/multimodal_utils.py`,
lines 170-204). -/
def validate_item_for_modality (o : ImgOracles) (hasClient : Bool)
    (item : Item) (modality : String) (index : Nat) : Except PyErr Validated :=
  match
    (if modality == "text" then (validate_text_item item).map Validated.text
     else if modality == "image" then
       (validate_image_item o hasClient item).map Validated.image
     else if modality == "audio" then
       .error (.notImplementedError audioNotImplementedMsg)
     else .error (.valueError (invalidModalityMsg modality))) with
  | .ok v => .ok v
  | .error e => .error (addIndex index e)

/-! ## Theorems -/

theorem startsWithList_iff (s p : List Char) :
    startsWithList s p = true ↔ ∃ r, s = p ++ r := by
  induction p generalizing s with
  | nil => simp [startsWithList]
  | cons b bs ih =>
    cases s with
    | nil => simp [startsWithList]
    | cons a as =>
      simp only [startsWithList, Bool.and_eq_true, beq_iff_eq, ih, List.cons_append,
        List.cons.injEq]
      constructor
      · rintro ⟨rfl, r, rfl⟩; exact ⟨r, rfl, rfl⟩
      · rintro ⟨r, rfl, rfl⟩; exact ⟨rfl, r, rfl⟩

theorem containsSub_iff (hay pat : List Char) :
    containsSub hay pat = true ↔ ∃ pre post, hay = pre ++ pat ++ post := by
  induction hay with
  | nil =>
    simp only [containsSub, decide_eq_true_eq]
    constructor
    · rintro rfl; exact ⟨[], [], rfl⟩
    · rintro ⟨pre, post, h⟩
      rcases List.append_eq_nil.mp h.symm with ⟨h1, h2⟩
      exact (List.append_eq_nil.mp h1).2
  | cons a t ih =>
    simp only [containsSub, Bool.or_eq_true, startsWithList_iff, ih]
    constructor
    · rintro (⟨r, hr⟩ | ⟨pre, post, hp⟩)
      · exact ⟨[], r, by simpa using hr⟩
      · exact ⟨a :: pre, post, by simp [hp]⟩
    · rintro ⟨pre, post, hp⟩
      cases pre with
      | nil => exact Or.inl ⟨post, by simpa using hp⟩
      | cons x xs =>
        simp only [List.cons_append, List.cons.injEq] at hp
        exact Or.inr ⟨xs, post, hp.2⟩

/-! ### Grouping lemmas -/

theorem groupAux_fst_mem_iff (k : Nat) (l : List (α × String)) (p : Nat) (d : α) :
    (p, d) ∈ (groupAux k l).1 ↔
      ∃ j m, l[j]? = some (d, m) ∧ (m == "image") = false ∧ p = k + j := by
  induction l generalizing k with
  | nil => simp [groupAux]
  | cons hd tl ih =>
    obtain ⟨d₀, m₀⟩ := hd
    by_cases him : (m₀ == "image") = true
    · simp only [groupAux, him, if_pos, ih]
      constructor
      · rintro ⟨j, m, hj, hm, rfl⟩
        exact ⟨j + 1, m, by simpa using hj, hm, by omega⟩
      · rintro ⟨j, m, hj, hm, rfl⟩
        cases j with
        | zero =>
          simp only [List.getElem?_cons_zero, Option.some.injEq, Prod.mk.injEq] at hj
          rw [← hj.2] at hm; rw [him] at hm; exact absurd hm (by simp)
        | succ j' =>
          simp only [List.getElem?_cons_succ] at hj
          exact ⟨j', m, hj, hm, by omega⟩
    · have him' : (m₀ == "image") = false := by
        cases h : (m₀ == "image") with
        | false => rfl
        | true => exact absurd h him
      simp only [groupAux, him', Bool.false_eq_true, if_neg, List.mem_cons,
        Prod.mk.injEq, ih, if_false]
      constructor
      · rintro (⟨rfl, rfl⟩ | ⟨j, m, hj, hm, rfl⟩)
        · exact ⟨0, m₀, by simp, him', by omega⟩
        · exact ⟨j + 1, m, by simpa using hj, hm, by omega⟩
      · rintro ⟨j, m, hj, hm, rfl⟩
        cases j with
        | zero =>
          simp only [List.getElem?_cons_zero, Option.some.injEq, Prod.mk.injEq] at hj
          exact Or.inl ⟨by omega, hj.1.symm⟩
        | succ j' =>
          simp only [List.getElem?_cons_succ] at hj
          exact Or.inr ⟨j', m, hj, hm, by omega⟩

theorem groupAux_snd_mem_iff (k : Nat) (l : List (α × String)) (p : Nat) (d : α) :
    (p, d) ∈ (groupAux k l).2 ↔
      ∃ j, l[j]? = some (d, "image") ∧ p = k + j := by
  induction l generalizing k with
  | nil => simp [groupAux]
  | cons hd tl ih =>
    obtain ⟨d₀, m₀⟩ := hd
    by_cases him : (m₀ == "image") = true
    · have hm₀ : m₀ = "image" := by simpa using him
      subst hm₀
      simp only [groupAux, him, if_pos, List.mem_cons, Prod.mk.injEq, ih]
      constructor
      · rintro (⟨rfl, rfl⟩ | ⟨j, hj, rfl⟩)
        · exact ⟨0, by simp, by omega⟩
        · exact ⟨j + 1, by simpa using hj, by omega⟩
      · rintro ⟨j, hj, rfl⟩
        cases j with
        | zero =>
          simp only [List.getElem?_cons_zero, Option.some.injEq, Prod.mk.injEq] at hj
          exact Or.inl ⟨by omega, hj.1.symm⟩
        | succ j' =>
          simp only [List.getElem?_cons_succ] at hj
          exact Or.inr ⟨j', hj, by omega⟩
    · simp only [groupAux, if_neg him, ih]
      constructor
      · rintro ⟨j, hj, rfl⟩
        exact ⟨j + 1, by simpa using hj, by omega⟩
      · rintro ⟨j, hj, rfl⟩
        cases j with
        | zero =>
          simp only [List.getElem?_cons_zero, Option.some.injEq, Prod.mk.injEq] at hj
          exact absurd (by simp [hj.2] : (m₀ == "image") = true) him
        | succ j' =>
          simp only [List.getElem?_cons_succ] at hj
          exact ⟨j', hj, by omega⟩

theorem groupAux_fst_bound (k : Nat) (l : List (α × String)) :
    ∀ q ∈ ((groupAux k l).1.map Prod.fst), k ≤ q ∧ q < k + l.length := by
  intro q hq
  obtain ⟨⟨p, d⟩, hmem, rfl⟩ := List.mem_map.mp hq
  obtain ⟨j, m, hj, _, rfl⟩ := (groupAux_fst_mem_iff k l p d).mp hmem
  have hjlen : j < l.length := by
    by_contra hge
    rw [List.getElem?_eq_none (by omega)] at hj
    exact Option.noConfusion hj
  exact ⟨by omega, by omega⟩

theorem groupAux_snd_bound (k : Nat) (l : List (α × String)) :
    ∀ q ∈ ((groupAux k l).2.map Prod.fst), k ≤ q ∧ q < k + l.length := by
  intro q hq
  obtain ⟨⟨p, d⟩, hmem, rfl⟩ := List.mem_map.mp hq
  obtain ⟨j, hj, rfl⟩ := (groupAux_snd_mem_iff k l p d).mp hmem
  have hjlen : j < l.length := by
    by_contra hge
    rw [List.getElem?_eq_none (by omega)] at hj
    exact Option.noConfusion hj
  exact ⟨by omega, by omega⟩

theorem groupAux_fst_map_pairwise (k : Nat) (l : List (α × String)) :
    ((groupAux k l).1.map Prod.fst).Pairwise (· < ·) := by
  induction l generalizing k with
  | nil => simp [groupAux]
  | cons hd tl ih =>
    obtain ⟨d₀, m₀⟩ := hd
    by_cases him : (m₀ == "image") = true
    · simpa [groupAux, him] using ih (k + 1)
    · simp only [groupAux, if_neg him, List.map_cons]
      exact List.Pairwise.cons
        (fun q hq => by have := (groupAux_fst_bound (k + 1) tl q hq).1; omega)
        (ih (k + 1))

theorem groupAux_snd_map_pairwise (k : Nat) (l : List (α × String)) :
    ((groupAux k l).2.map Prod.fst).Pairwise (· < ·) := by
  induction l generalizing k with
  | nil => simp [groupAux]
  | cons hd tl ih =>
    obtain ⟨d₀, m₀⟩ := hd
    by_cases him : (m₀ == "image") = true
    · simp only [groupAux, if_pos him, List.map_cons]
      exact List.Pairwise.cons
        (fun q hq => by have := (groupAux_snd_bound (k + 1) tl q hq).1; omega)
        (ih (k + 1))
    · simpa [groupAux, him] using ih (k + 1)

theorem groupAux_fst_nodup (k : Nat) (l : List (α × String)) :
    ((groupAux k l).1.map Prod.fst).Nodup :=
  (groupAux_fst_map_pairwise k l).imp Nat.ne_of_lt

theorem groupAux_snd_nodup (k : Nat) (l : List (α × String)) :
    ((groupAux k l).2.map Prod.fst).Nodup :=
  (groupAux_snd_map_pairwise k l).imp Nat.ne_of_lt

theorem groupAux_disjoint (k : Nat) (l : List (α × String)) (p : Nat) :
    p ∈ ((groupAux k l).1.map Prod.fst) → p ∉ ((groupAux k l).2.map Prod.fst) := by
  intro ht hi
  obtain ⟨⟨p₁, d₁⟩, hmem₁, h₁⟩ := List.mem_map.mp ht
  obtain ⟨⟨p₂, d₂⟩, hmem₂, h₂⟩ := List.mem_map.mp hi
  simp only at h₁ h₂
  subst h₁
  rw [h₂] at hmem₂
  obtain ⟨j, m, hj, hm, hp₁⟩ := (groupAux_fst_mem_iff k l p₁ d₁).mp hmem₁
  obtain ⟨j', hj', hp₂⟩ := (groupAux_snd_mem_iff k l p₁ d₂).mp hmem₂
  have : j = j' := by omega
  subst this
  rw [hj, Option.some.injEq, Prod.mk.injEq] at hj'
  rw [hj'.2] at hm
  simp at hm

theorem groupAux_complete (k : Nat) (l : List (α × String)) (p : Nat)
    (hk : k ≤ p) (hp : p < k + l.length) :
    p ∈ ((groupAux k l).1.map Prod.fst) ∨ p ∈ ((groupAux k l).2.map Prod.fst) := by
  have hlt : p - k < l.length := by omega
  obtain ⟨d, m, hdm⟩ : ∃ d m, l[p - k] = (d, m) := ⟨(l[p - k]).1, (l[p - k]).2, rfl⟩
  have hj : l[p - k]? = some (d, m) := by
    rw [List.getElem?_eq_getElem hlt, hdm]
  by_cases him : (m == "image") = true
  · refine Or.inr (List.mem_map.mpr ⟨(p, d), ?_, rfl⟩)
    exact (groupAux_snd_mem_iff k l p d).mpr
      ⟨p - k, by rwa [show m = "image" from by simpa using him] at hj, by omega⟩
  · refine Or.inl (List.mem_map.mpr ⟨(p, d), ?_, rfl⟩)
    exact (groupAux_fst_mem_iff k l p d).mpr
      ⟨p - k, m, hj, by simpa using him, by omega⟩

theorem groupAux_fst_sublist (k : Nat) (l : List (α × String)) :
    (groupAux k l).1.Sublist (enumPairs k l) := by
  induction l generalizing k with
  | nil => simp [groupAux, enumPairs]
  | cons hd tl ih =>
    obtain ⟨d₀, m₀⟩ := hd
    by_cases him : (m₀ == "image") = true
    · simpa [groupAux, him, enumPairs] using (ih (k + 1)).cons (k, d₀)
    · simpa [groupAux, him, enumPairs] using (ih (k + 1)).cons₂ (k, d₀)

theorem groupAux_snd_sublist (k : Nat) (l : List (α × String)) :
    (groupAux k l).2.Sublist (enumPairs k l) := by
  induction l generalizing k with
  | nil => simp [groupAux, enumPairs]
  | cons hd tl ih =>
    obtain ⟨d₀, m₀⟩ := hd
    by_cases him : (m₀ == "image") = true
    · simpa [groupAux, him, enumPairs] using (ih (k + 1)).cons₂ (k, d₀)
    · simpa [groupAux, him, enumPairs] using (ih (k + 1)).cons (k, d₀)

theorem enumPairs_map_fst (k : Nat) (l : List (α × String)) :
    (enumPairs k l).map Prod.fst = List.range' k l.length := by
  induction l generalizing k with
  | nil => simp [enumPairs]
  | cons hd tl ih => simp [enumPairs, List.range', ih]

theorem enumPairs_map_snd (k : Nat) (l : List (α × String)) :
    (enumPairs k l).map Prod.snd = l.map Prod.fst := by
  induction l generalizing k with
  | nil => simp [enumPairs]
  | cons hd tl ih => simp [enumPairs, ih]

/-! ## Claims C2 and C3 -/

/-- C2: for every batch paired with a modality list of the same length, the
single-pass grouping produces groups whose index sets are pairwise disjoint
and whose union is exactly `{0, ..., N-1}` (no duplicates, no gaps), within
each group the original indices appear in strictly increasing order, and
each group is a subsequence of the enumerated original batch (whose index
column is exactly `0..N-1` and whose item column is the original batch). -/
theorem c2_partition_invariants (input_data modalities : List String)
    (hlen : input_data.length = modalities.length) :
    (∀ p, p ∈ ((group_by_modality input_data modalities).1.map Prod.fst) →
        p ∉ ((group_by_modality input_data modalities).2.map Prod.fst)) ∧
    (∀ p, p < input_data.length ↔
        (p ∈ ((group_by_modality input_data modalities).1.map Prod.fst) ∨
         p ∈ ((group_by_modality input_data modalities).2.map Prod.fst))) ∧
    ((group_by_modality input_data modalities).1.map Prod.fst).Pairwise (· < ·) ∧
    ((group_by_modality input_data modalities).2.map Prod.fst).Pairwise (· < ·) ∧
    (group_by_modality input_data modalities).1.Sublist
      (enumPairs 0 (input_data.zip modalities)) ∧
    (group_by_modality input_data modalities).2.Sublist
      (enumPairs 0 (input_data.zip modalities)) ∧
    (enumPairs 0 (input_data.zip modalities)).map Prod.fst =
      List.range input_data.length ∧
    (enumPairs 0 (input_data.zip modalities)).map Prod.snd = input_data := by
  have hziplen : (input_data.zip modalities).length = input_data.length := by
    rw [List.length_zip]; omega
  refine ⟨fun p => groupAux_disjoint 0 _ p, fun p => ?_,
    groupAux_fst_map_pairwise 0 _, groupAux_snd_map_pairwise 0 _,
    groupAux_fst_sublist 0 _, groupAux_snd_sublist 0 _, ?_, ?_⟩
  · constructor
    · intro hp
      exact groupAux_complete 0 _ p (Nat.zero_le p) (by omega)
    · rintro (h | h)
      · have := (groupAux_fst_bound 0 _ p h).2; omega
      · have := (groupAux_snd_bound 0 _ p h).2; omega
  · rw [enumPairs_map_fst, hziplen, List.range_eq_range']
  · rw [enumPairs_map_snd, List.map_fst_zip]
    omega

/-- Witness for C2 at the concrete mixed batch
`["a", "b", "c"]` with modalities `["text", "image", "text"]`. -/
theorem c2_partition_invariants_witness :
    (["a", "b", "c"] : List String).length =
      (["text", "image", "text"] : List String).length ∧
    ((∀ p, p ∈ ((group_by_modality ["a", "b", "c"] ["text", "image", "text"]).1.map Prod.fst) →
        p ∉ ((group_by_modality ["a", "b", "c"] ["text", "image", "text"]).2.map Prod.fst)) ∧
    (∀ p, p < (["a", "b", "c"] : List String).length ↔
        (p ∈ ((group_by_modality ["a", "b", "c"] ["text", "image", "text"]).1.map Prod.fst) ∨
         p ∈ ((group_by_modality ["a", "b", "c"] ["text", "image", "text"]).2.map Prod.fst))) ∧
    ((group_by_modality ["a", "b", "c"] ["text", "image", "text"]).1.map Prod.fst).Pairwise (· < ·) ∧
    ((group_by_modality ["a", "b", "c"] ["text", "image", "text"]).2.map Prod.fst).Pairwise (· < ·) ∧
    (group_by_modality ["a", "b", "c"] ["text", "image", "text"]).1.Sublist
      (enumPairs 0 ((["a", "b", "c"] : List String).zip ["text", "image", "text"])) ∧
    (group_by_modality ["a", "b", "c"] ["text", "image", "text"]).2.Sublist
      (enumPairs 0 ((["a", "b", "c"] : List String).zip ["text", "image", "text"])) ∧
    (enumPairs 0 ((["a", "b", "c"] : List String).zip ["text", "image", "text"])).map Prod.fst =
      List.range (["a", "b", "c"] : List String).length ∧
    (enumPairs 0 ((["a", "b", "c"] : List String).zip ["text", "image", "text"])).map Prod.snd =
      ["a", "b", "c"]) :=
  ⟨rfl, c2_partition_invariants ["a", "b", "c"] ["text", "image", "text"] rfl⟩

/-- C3: with no explicit modality, a string is classified `image` exactly
when it starts with `data:image/`, or starts with `http://` or `https://`
and contains one of the nine recognized extensions as a case-insensitive
substring anywhere in the string; any other string is `text`; a supplied
(truthy, i.e. non-empty — Python tests `if explicit_modality:`) explicit
modality is returned unconditionally, regardless of content. -/
theorem c3_classify (s m : String) (hm : m ≠ "") :
    detect_modality (.str s) (some m) = m ∧
    detect_modality (.str s) none = (if is_image_data s then "image" else "text") ∧
    (is_image_data s = true ↔
      ((∃ r, s.toList = "data:image/".toList ++ r) ∨
       ((∃ r, s.toList = "http://".toList ++ r) ∨ (∃ r, s.toList = "https://".toList ++ r)) ∧
        ∃ ext ∈ [".jpg", ".jpeg", ".png", ".gif", ".bmp", ".webp", ".svg", ".tiff", ".ico"],
          ∃ pre post, s.toList.map asciiLower = pre ++ ext.toList ++ post)) := by
  refine ⟨by simp [detect_modality, hm], rfl, ?_⟩
  by_cases hdata : pyStartsWith s "data:image/" = true
  · simp only [is_image_data, hdata, if_pos]
    have hd := (startsWithList_iff s.toList "data:image/".toList).mp hdata
    exact ⟨fun _ => Or.inl hd, fun _ => trivial⟩
  · have hdata' : ¬ startsWithList s.toList "data:image/".toList = true := hdata
    by_cases hhttp : (pyStartsWith s "http://" || pyStartsWith s "https://") = true
    · simp only [is_image_data, hdata, Bool.false_eq_true, if_false, hhttp, if_pos,
        List.any_eq_true, image_extensions]
      constructor
      · rintro ⟨ext, hext, hcont⟩
        refine Or.inr ⟨?_, ext, hext, ?_⟩
        · rcases Bool.or_eq_true_iff.mp hhttp with h | h
          · exact Or.inl ((startsWithList_iff _ _).mp h)
          · exact Or.inr ((startsWithList_iff _ _).mp h)
        · exact (containsSub_iff _ _).mp hcont
      · rintro (⟨r, hr⟩ | ⟨_, ext, hext, pre, post, hsplit⟩)
        · exact absurd ((startsWithList_iff s.toList "data:image/".toList).mpr ⟨r, hr⟩) hdata'
        · exact ⟨ext, hext, (containsSub_iff _ _).mpr ⟨pre, post, hsplit⟩⟩
    · have hh1 : ¬ startsWithList s.toList "http://".toList = true :=
        fun h => hhttp (Bool.or_eq_true_iff.mpr (Or.inl h))
      have hh2 : ¬ startsWithList s.toList "https://".toList = true :=
        fun h => hhttp (Bool.or_eq_true_iff.mpr (Or.inr h))
      simp only [is_image_data, hdata, Bool.false_eq_true, if_false, hhttp]
      constructor
      · intro h; exact absurd h (by simp)
      · rintro (⟨r, hr⟩ | ⟨hsch, _⟩)
        · exact absurd ((startsWithList_iff s.toList "data:image/".toList).mpr ⟨r, hr⟩) hdata'
        · rcases hsch with ⟨r, hr⟩ | ⟨r, hr⟩
          · exact absurd ((startsWithList_iff s.toList "http://".toList).mpr ⟨r, hr⟩) hh1
          · exact absurd ((startsWithList_iff s.toList "https://".toList).mpr ⟨r, hr⟩) hh2

/-- Witness for C3 at `"https://EX.com/photo.JPG?x=1"` with explicit
modality `"text"`: the explicit tag wins, and without it the URL is
classified `image` through the case-insensitive `.jpg` match. -/
theorem c3_classify_witness :
    ("text" : String) ≠ "" ∧
    (detect_modality (.str "https://EX.com/photo.JPG?x=1") (some "text") = "text" ∧
    detect_modality (.str "https://EX.com/photo.JPG?x=1") none =
      (if is_image_data "https://EX.com/photo.JPG?x=1" then "image" else "text") ∧
    (is_image_data "https://EX.com/photo.JPG?x=1" = true ↔
      ((∃ r, ("https://EX.com/photo.JPG?x=1" : String).toList = "data:image/".toList ++ r) ∨
       ((∃ r, ("https://EX.com/photo.JPG?x=1" : String).toList = "http://".toList ++ r) ∨
        (∃ r, ("https://EX.com/photo.JPG?x=1" : String).toList = "https://".toList ++ r)) ∧
        ∃ ext ∈ [".jpg", ".jpeg", ".png", ".gif", ".bmp", ".webp", ".svg", ".tiff", ".ico"],
          ∃ pre post, ("https://EX.com/photo.JPG?x=1" : String).toList.map asciiLower =
            pre ++ ext.toList ++ post))) :=
  ⟨by decide, c3_classify "https://EX.com/photo.JPG?x=1" "text" (by decide)⟩

/-! ## Claim C7: length mismatch fails before any I/O -/

/-- C7: whenever `len(input_data) != len(modalities)`,
`get_embeddings_mixed` fails with the length-mismatch `InfinityError`
and its I/O trace is empty — no backend call, no grouping output, no
dispatch, for every possible backend. -/
theorem c7_length_mismatch (backend : Payload → Option (BackendResp β))
    (input_data modalities : List String) (model : String)
    (h : input_data.length ≠ modalities.length) :
    get_embeddings_mixed backend input_data model modalities =
      (.error "input_data and modalities must have same length", []) := by
  simp [get_embeddings_mixed, h]

/-- Witness for C7: one item but an empty modality list. -/
theorem c7_length_mismatch_witness :
    (["a"] : List String).length ≠ ([] : List String).length ∧
    get_embeddings_mixed (fun _ => (none : Option (BackendResp Nat))) ["a"] "m" [] =
      (.error "input_data and modalities must have same length", []) :=
  ⟨by decide, c7_length_mismatch (fun _ => none) ["a"] [] "m" (by decide)⟩

/-! ## Scatter/merge lemmas for C1 -/

theorem scatter_ok (es : List (Entry β)) (idxs : List Nat)
    (merged : List (Option (Entry β)))
    (hnd : idxs.Nodup) (hb : ∀ p ∈ idxs, p < merged.length)
    (hlen : es.length = idxs.length) :
    ∃ out, scatter es idxs merged = .ok out ∧ out.length = merged.length ∧
      (∀ (j p : Nat), idxs[j]? = some p →
        ∃ e0, es[j]? = some e0 ∧ out[p]? = some (some (setIndex e0 p))) ∧
      (∀ p, p ∉ idxs → out[p]? = merged[p]?) := by
  induction idxs generalizing es merged with
  | nil =>
    refine ⟨merged, ?_, rfl, ?_, fun p _ => rfl⟩
    · cases es <;> simp [scatter]
    · intro j p hj
      simp at hj
  | cons i rest ih =>
    cases es with
    | nil => simp at hlen
    | cons e es' =>
      have hi : i < merged.length := hb i (List.mem_cons_self i rest)
      have hlen' : es'.length = rest.length := by simpa using hlen
      have hnd' : rest.Nodup := hnd.of_cons
      have hirest : i ∉ rest := by
        intro hmem
        exact (List.nodup_cons.mp hnd).1 hmem
      obtain ⟨out, hout, hlenout, hget, huntouched⟩ :=
        ih es' (merged.set i (some (setIndex e i))) hnd'
          (fun p hp => by rw [List.length_set]; exact hb p (List.mem_cons_of_mem i hp))
          hlen'
      refine ⟨out, ?_, by rw [hlenout, List.length_set], ?_, ?_⟩
      · simp [scatter, hi, hout]
      · intro j p hj
        cases j with
        | zero =>
          simp only [List.getElem?_cons_zero, Option.some.injEq] at hj
          subst hj
          refine ⟨e, by simp, ?_⟩
          rw [huntouched i hirest, List.getElem?_set_eq_of_lt _ hi]
        | succ j' =>
          simp only [List.getElem?_cons_succ] at hj
          obtain ⟨e0, he0, hop⟩ := hget j' p hj
          exact ⟨e0, by simpa using he0, hop⟩
      · intro p hp
        have hpi : p ≠ i := fun h => hp (h ▸ List.mem_cons_self i rest)
        have hpr : p ∉ rest := fun h => hp (List.mem_cons_of_mem i h)
        rw [huntouched p hpr, List.getElem?_set_ne (fun h => hpi h.symm)]

theorem mixedAfterGather_snd (input_len : Nat) (model : String)
    (metaIdxs : List (List Nat)) (gathered : Except String (List (BackendResp β)))
    (calls : List Payload) :
    (mixedAfterGather input_len model metaIdxs gathered calls).2 = calls := by
  cases gathered with
  | error e => rfl
  | ok results =>
    simp only [mixedAfterGather]
    cases mergeAll results metaIdxs (List.replicate input_len none) <;> rfl

theorem mem_text_group_modality (input_data modalities : List String) (p : Nat)
    (hp : p ∈ ((group_by_modality input_data modalities).1.map Prod.fst)) :
    (modalities.getD p "" == "image") = false ∧ p < input_data.length := by
  obtain ⟨⟨q, d⟩, hmem, hfst⟩ := List.mem_map.mp hp
  simp only at hfst
  obtain ⟨j, m, hj, hm, hpj⟩ :=
    (groupAux_fst_mem_iff 0 (input_data.zip modalities) q d).mp hmem
  have hj' : j = q := by omega
  subst hj'
  rw [← hfst]
  obtain ⟨h1, h2⟩ := (List.getElem?_zip_eq_some).mp hj
  have hmod : modalities.getD j "" = m := by
    rw [List.getD_eq_getElem?_getD, h2]; rfl
  have hlt : j < input_data.length := by
    by_contra hge
    rw [List.getElem?_eq_none (by omega)] at h1
    exact Option.noConfusion h1
  exact ⟨hmod ▸ hm, hlt⟩

theorem mem_image_group_modality (input_data modalities : List String) (p : Nat)
    (hp : p ∈ ((group_by_modality input_data modalities).2.map Prod.fst)) :
    (modalities.getD p "" == "image") = true ∧ p < input_data.length := by
  obtain ⟨⟨q, d⟩, hmem, hfst⟩ := List.mem_map.mp hp
  simp only at hfst
  obtain ⟨j, hj, hpj⟩ :=
    (groupAux_snd_mem_iff 0 (input_data.zip modalities) q d).mp hmem
  have hj' : j = q := by omega
  subst hj'
  rw [← hfst]
  obtain ⟨h1, h2⟩ := (List.getElem?_zip_eq_some).mp hj
  have hmod : modalities.getD j "" = "image" := by
    rw [List.getD_eq_getElem?_getD, h2]; rfl
  have hlt : j < input_data.length := by
    by_contra hge
    rw [List.getElem?_eq_none (by omega)] at h1
    exact Option.noConfusion h1
  exact ⟨by rw [hmod]; simp, hlt⟩

theorem text_group_item_lookup (input_data modalities : List String) (j p : Nat)
    (hj : ((group_by_modality input_data modalities).1.map Prod.fst)[j]? = some p) :
    ∃ d, ((group_by_modality input_data modalities).1.map Prod.snd)[j]? = some d ∧
      input_data[p]? = some d := by
  rw [List.getElem?_map] at hj
  obtain ⟨pr, hpr, hfst⟩ := Option.map_eq_some'.mp hj
  obtain ⟨q, d⟩ := pr
  simp only at hfst
  have hmem : (q, d) ∈ (group_by_modality input_data modalities).1 :=
    List.mem_iff_getElem?.mpr ⟨j, hpr⟩
  obtain ⟨j', m, hz, _, hpj⟩ :=
    (groupAux_fst_mem_iff 0 (input_data.zip modalities) q d).mp hmem
  have hj'' : j' = q := by omega
  subst hj''
  rw [← hfst]
  refine ⟨d, ?_, ((List.getElem?_zip_eq_some).mp hz).1⟩
  rw [List.getElem?_map, hpr]
  rfl

theorem image_group_item_lookup (input_data modalities : List String) (j p : Nat)
    (hj : ((group_by_modality input_data modalities).2.map Prod.fst)[j]? = some p) :
    ∃ d, ((group_by_modality input_data modalities).2.map Prod.snd)[j]? = some d ∧
      input_data[p]? = some d := by
  rw [List.getElem?_map] at hj
  obtain ⟨pr, hpr, hfst⟩ := Option.map_eq_some'.mp hj
  obtain ⟨q, d⟩ := pr
  simp only at hfst
  have hmem : (q, d) ∈ (group_by_modality input_data modalities).2 :=
    List.mem_iff_getElem?.mpr ⟨j, hpr⟩
  obtain ⟨j', hz, hpj⟩ :=
    (groupAux_snd_mem_iff 0 (input_data.zip modalities) q d).mp hmem
  have hj'' : j' = q := by omega
  subst hj''
  rw [← hfst]
  refine ⟨d, ?_, ((List.getElem?_zip_eq_some).mp hz).1⟩
  rw [List.getElem?_map, hpr]
  rfl

/-- C1: for every mixed batch of `N` items (with a same-length modality
list) whose per-group backend requests all succeed with
correctly-sized data arrays, `get_embeddings_mixed` returns a merged
response whose `data` has length `N` and whose entry at every position
`p` carries `index = p` and is exactly the (index-rewritten) entry the
backend returned for the item originally at position `p` — the item
submitted at `p`'s rank in `p`'s modality group being `input_data[p]`
itself. -/
theorem c1_merge_preserves_order (backend : Payload → Option (BackendResp β))
    (input_data modalities : List String) (model : String)
    (hlen : input_data.length = modalities.length)
    (hsucc : ∀ pl ∈ (get_embeddings_mixed backend input_data model modalities).2,
      ∃ r, backend pl = some r ∧ r.data.length = pl.input.length) :
    ∃ resp, (get_embeddings_mixed backend input_data model modalities).1 = .ok resp ∧
      resp.data.length = input_data.length ∧
      ∀ p, p < input_data.length →
        ∃ e, resp.data[p]? = some (some e) ∧ e.index = p ∧
          expectedEntry backend input_data modalities model p = some e ∧
          submittedItemFor input_data modalities p = input_data[p]? := by
  have hne : ¬ (input_data.length ≠ modalities.length) := by omega
  have hzl : (input_data.zip modalities).length = input_data.length := by
    rw [List.length_zip]; omega
  have htrace : (get_embeddings_mixed backend input_data model modalities).2 =
      (tasksFor (group_by_modality input_data modalities).1
        (group_by_modality input_data modalities).2).map
        (fun tk => mkPayload model (tk.2.map Prod.snd) tk.1) := by
    simp only [get_embeddings_mixed]
    rw [if_neg hne]
    exact mixedAfterGather_snd _ _ _ _ _
  rw [htrace] at hsucc
  have hmixEq : get_embeddings_mixed backend input_data model modalities =
      mixedAfterGather input_data.length model
        ((tasksFor (group_by_modality input_data modalities).1
            (group_by_modality input_data modalities).2).map (fun tk => tk.2.map Prod.fst))
        (gatherResults backend model
          (tasksFor (group_by_modality input_data modalities).1
            (group_by_modality input_data modalities).2))
        ((tasksFor (group_by_modality input_data modalities).1
            (group_by_modality input_data modalities).2).map
          (fun tk => mkPayload model (tk.2.map Prod.snd) tk.1)) := by
    simp only [get_embeddings_mixed]
    rw [if_neg hne]
  have hBoundT : ∀ p ∈ ((group_by_modality input_data modalities).1.map Prod.fst),
      p < input_data.length := fun p hp => by
    have hb := (groupAux_fst_bound 0 (input_data.zip modalities) p hp).2
    omega
  have hBoundI : ∀ p ∈ ((group_by_modality input_data modalities).2.map Prod.fst),
      p < input_data.length := fun p hp => by
    have hb := (groupAux_snd_bound 0 (input_data.zip modalities) p hp).2
    omega
  have hNodT : ((group_by_modality input_data modalities).1.map Prod.fst).Nodup :=
    groupAux_fst_nodup 0 _
  have hNodI : ((group_by_modality input_data modalities).2.map Prod.fst).Nodup :=
    groupAux_snd_nodup 0 _
  have hDisj : ∀ p, p ∈ ((group_by_modality input_data modalities).1.map Prod.fst) →
      p ∉ ((group_by_modality input_data modalities).2.map Prod.fst) :=
    groupAux_disjoint 0 _
  have hComp : ∀ p, p < input_data.length →
      p ∈ ((group_by_modality input_data modalities).1.map Prod.fst) ∨
      p ∈ ((group_by_modality input_data modalities).2.map Prod.fst) := fun p hp =>
    groupAux_complete 0 _ p (Nat.zero_le p) (by omega)
  cases hT : (group_by_modality input_data modalities).1.isEmpty with
  | true =>
    cases hI : (group_by_modality input_data modalities).2.isEmpty with
    | true =>
      refine ⟨{ object := "list", data := List.replicate input_data.length none,
                model := model, prompt_tokens := input_data.length,
                total_tokens := input_data.length }, ?_, by simp, ?_⟩
      · rw [hmixEq]
        simp [tasksFor, hT, hI, gatherResults, mergeAll, mixedAfterGather]
      · intro p hp
        rcases hComp p hp with hmem | hmem
        · rw [List.isEmpty_iff.mp hT] at hmem; simp at hmem
        · rw [List.isEmpty_iff.mp hI] at hmem; simp at hmem
    | false =>
      have htasks : tasksFor (group_by_modality input_data modalities).1
          (group_by_modality input_data modalities).2 =
          [("image", (group_by_modality input_data modalities).2)] := by
        simp [tasksFor, hT, hI]
      rw [htasks] at hsucc
      simp only [List.map_cons, List.map_nil] at hsucc
      obtain ⟨r1, hb1, hlen1⟩ := hsucc
        (mkPayload model ((group_by_modality input_data modalities).2.map Prod.snd) "image")
        (by simp)
      have hdlen : r1.data.length =
          ((group_by_modality input_data modalities).2.map Prod.fst).length := by
        rw [hlen1]; simp [mkPayload]
      obtain ⟨out, hscat, hlenout, hget, huntouch⟩ :=
        scatter_ok r1.data ((group_by_modality input_data modalities).2.map Prod.fst)
          (List.replicate input_data.length none) hNodI
          (fun p hp => by rw [List.length_replicate]; exact hBoundI p hp) hdlen
      refine ⟨{ object := "list", data := out, model := model,
                prompt_tokens := input_data.length, total_tokens := input_data.length },
              ?_, by rw [hlenout, List.length_replicate], ?_⟩
      · rw [hmixEq, htasks]
        simp only [List.map_cons, List.map_nil, gatherResults, get_embeddings, hb1,
          mergeAll, hscat, mixedAfterGather]
      · intro p hp
        have hmem : p ∈ ((group_by_modality input_data modalities).2.map Prod.fst) := by
          rcases hComp p hp with h | h
          · rw [List.isEmpty_iff.mp hT] at h; simp at h
          · exact h
        have hmod := (mem_image_group_modality input_data modalities p hmem).1
        have hjlt : List.indexOf p ((group_by_modality input_data modalities).2.map Prod.fst) <
            ((group_by_modality input_data modalities).2.map Prod.fst).length :=
          List.indexOf_lt_length.mpr hmem
        have hjget : ((group_by_modality input_data modalities).2.map Prod.fst)[List.indexOf p
            ((group_by_modality input_data modalities).2.map Prod.fst)]? = some p := by
          rw [List.getElem?_eq_getElem hjlt]
          exact congrArg some (List.getElem_indexOf hjlt)
        obtain ⟨e0, he0, hop⟩ := hget _ p hjget
        obtain ⟨d, hd, hinput⟩ := image_group_item_lookup input_data modalities _ p hjget
        refine ⟨setIndex e0 p, hop, rfl, ?_, ?_⟩
        · simp only [expectedEntry, if_pos hmod, hb1, he0]
          rfl
        · simp only [submittedItemFor, if_pos hmod]
          rw [hd, hinput]
  | false =>
    cases hI : (group_by_modality input_data modalities).2.isEmpty with
    | true =>
      have htasks : tasksFor (group_by_modality input_data modalities).1
          (group_by_modality input_data modalities).2 =
          [("text", (group_by_modality input_data modalities).1)] := by
        simp [tasksFor, hT, hI]
      rw [htasks] at hsucc
      simp only [List.map_cons, List.map_nil] at hsucc
      obtain ⟨r1, hb1, hlen1⟩ := hsucc
        (mkPayload model ((group_by_modality input_data modalities).1.map Prod.snd) "text")
        (by simp)
      have hdlen : r1.data.length =
          ((group_by_modality input_data modalities).1.map Prod.fst).length := by
        rw [hlen1]; simp [mkPayload]
      obtain ⟨out, hscat, hlenout, hget, huntouch⟩ :=
        scatter_ok r1.data ((group_by_modality input_data modalities).1.map Prod.fst)
          (List.replicate input_data.length none) hNodT
          (fun p hp => by rw [List.length_replicate]; exact hBoundT p hp) hdlen
      refine ⟨{ object := "list", data := out, model := model,
                prompt_tokens := input_data.length, total_tokens := input_data.length },
              ?_, by rw [hlenout, List.length_replicate], ?_⟩
      · rw [hmixEq, htasks]
        simp only [List.map_cons, List.map_nil, gatherResults, get_embeddings, hb1,
          mergeAll, hscat, mixedAfterGather]
      · intro p hp
        have hmem : p ∈ ((group_by_modality input_data modalities).1.map Prod.fst) := by
          rcases hComp p hp with h | h
          · exact h
          · rw [List.isEmpty_iff.mp hI] at h; simp at h
        have hmod := (mem_text_group_modality input_data modalities p hmem).1
        have hjlt : List.indexOf p ((group_by_modality input_data modalities).1.map Prod.fst) <
            ((group_by_modality input_data modalities).1.map Prod.fst).length :=
          List.indexOf_lt_length.mpr hmem
        have hjget : ((group_by_modality input_data modalities).1.map Prod.fst)[List.indexOf p
            ((group_by_modality input_data modalities).1.map Prod.fst)]? = some p := by
          rw [List.getElem?_eq_getElem hjlt]
          exact congrArg some (List.getElem_indexOf hjlt)
        obtain ⟨e0, he0, hop⟩ := hget _ p hjget
        obtain ⟨d, hd, hinput⟩ := text_group_item_lookup input_data modalities _ p hjget
        have hmodne : ¬ ((modalities.getD p "" == "image") = true) := by rw [hmod]; simp
        refine ⟨setIndex e0 p, hop, rfl, ?_, ?_⟩
        · simp only [expectedEntry, if_neg hmodne, hb1, he0]
          rfl
        · simp only [submittedItemFor, if_neg hmodne]
          rw [hd, hinput]
    | false =>
      have htasks : tasksFor (group_by_modality input_data modalities).1
          (group_by_modality input_data modalities).2 =
          [("text", (group_by_modality input_data modalities).1),
           ("image", (group_by_modality input_data modalities).2)] := by
        simp [tasksFor, hT, hI]
      rw [htasks] at hsucc
      simp only [List.map_cons, List.map_nil] at hsucc
      obtain ⟨r1, hb1, hlen1⟩ := hsucc
        (mkPayload model ((group_by_modality input_data modalities).1.map Prod.snd) "text")
        (by simp)
      obtain ⟨r2, hb2, hlen2⟩ := hsucc
        (mkPayload model ((group_by_modality input_data modalities).2.map Prod.snd) "image")
        (by simp)
      have hdlen1 : r1.data.length =
          ((group_by_modality input_data modalities).1.map Prod.fst).length := by
        rw [hlen1]; simp [mkPayload]
      have hdlen2 : r2.data.length =
          ((group_by_modality input_data modalities).2.map Prod.fst).length := by
        rw [hlen2]; simp [mkPayload]
      obtain ⟨out1, hscat1, hlenout1, hget1, huntouch1⟩ :=
        scatter_ok r1.data ((group_by_modality input_data modalities).1.map Prod.fst)
          (List.replicate input_data.length none) hNodT
          (fun p hp => by rw [List.length_replicate]; exact hBoundT p hp) hdlen1
      obtain ⟨out2, hscat2, hlenout2, hget2, huntouch2⟩ :=
        scatter_ok r2.data ((group_by_modality input_data modalities).2.map Prod.fst)
          out1 hNodI
          (fun p hp => by rw [hlenout1, List.length_replicate]; exact hBoundI p hp) hdlen2
      refine ⟨{ object := "list", data := out2, model := model,
                prompt_tokens := input_data.length, total_tokens := input_data.length },
              ?_, by rw [hlenout2, hlenout1, List.length_replicate], ?_⟩
      · rw [hmixEq, htasks]
        simp only [List.map_cons, List.map_nil, gatherResults, get_embeddings, hb1, hb2,
          mergeAll, hscat1, hscat2, mixedAfterGather]
      · intro p hp
        rcases hComp p hp with hmem | hmem
        · have hmod := (mem_text_group_modality input_data modalities p hmem).1
          have hjlt : List.indexOf p
              ((group_by_modality input_data modalities).1.map Prod.fst) <
              ((group_by_modality input_data modalities).1.map Prod.fst).length :=
            List.indexOf_lt_length.mpr hmem
          have hjget : ((group_by_modality input_data modalities).1.map Prod.fst)[List.indexOf p
              ((group_by_modality input_data modalities).1.map Prod.fst)]? = some p := by
            rw [List.getElem?_eq_getElem hjlt]
            exact congrArg some (List.getElem_indexOf hjlt)
          obtain ⟨e0, he0, hop⟩ := hget1 _ p hjget
          obtain ⟨d, hd, hinput⟩ := text_group_item_lookup input_data modalities _ p hjget
          have hmodne : ¬ ((modalities.getD p "" == "image") = true) := by rw [hmod]; simp
          refine ⟨setIndex e0 p, ?_, rfl, ?_, ?_⟩
          · rw [huntouch2 p (hDisj p hmem)]
            exact hop
          · simp only [expectedEntry, if_neg hmodne, hb1, he0]
            rfl
          · simp only [submittedItemFor, if_neg hmodne]
            rw [hd, hinput]
        · have hmod := (mem_image_group_modality input_data modalities p hmem).1
          have hjlt : List.indexOf p
              ((group_by_modality input_data modalities).2.map Prod.fst) <
              ((group_by_modality input_data modalities).2.map Prod.fst).length :=
            List.indexOf_lt_length.mpr hmem
          have hjget : ((group_by_modality input_data modalities).2.map Prod.fst)[List.indexOf p
              ((group_by_modality input_data modalities).2.map Prod.fst)]? = some p := by
            rw [List.getElem?_eq_getElem hjlt]
            exact congrArg some (List.getElem_indexOf hjlt)
          obtain ⟨e0, he0, hop⟩ := hget2 _ p hjget
          obtain ⟨d, hd, hinput⟩ := image_group_item_lookup input_data modalities _ p hjget
          refine ⟨setIndex e0 p, hop, rfl, ?_, ?_⟩
          · simp only [expectedEntry, if_pos hmod, hb2, he0]
            rfl
          · simp only [submittedItemFor, if_pos hmod]
            rw [hd, hinput]

/-- Witness for C1 at the concrete mixed batch
`["hello", "https://x/y.png"]` with modalities `["text", "image"]`. -/
theorem c1_merge_preserves_order_witness :
    ((["hello", "https://x/y.png"] : List String).length =
      (["text", "image"] : List String).length) ∧
    (∀ pl ∈ (get_embeddings_mixed demoBackend ["hello", "https://x/y.png"] "m"
        ["text", "image"]).2,
      ∃ r, demoBackend pl = some r ∧ r.data.length = pl.input.length) ∧
    (∃ resp, (get_embeddings_mixed demoBackend ["hello", "https://x/y.png"] "m"
        ["text", "image"]).1 = .ok resp ∧
      resp.data.length = (["hello", "https://x/y.png"] : List String).length ∧
      ∀ p, p < (["hello", "https://x/y.png"] : List String).length →
        ∃ e, resp.data[p]? = some (some e) ∧ e.index = p ∧
          expectedEntry demoBackend ["hello", "https://x/y.png"] ["text", "image"] "m" p =
            some e ∧
          submittedItemFor ["hello", "https://x/y.png"] ["text", "image"] p =
            (["hello", "https://x/y.png"] : List String)[p]?) :=
  ⟨rfl, fun pl _ => ⟨_, rfl, by simp [demoBackend]⟩,
    c1_merge_preserves_order demoBackend ["hello", "https://x/y.png"] ["text", "image"] "m"
      rfl (fun pl _ => ⟨_, rfl, by simp [demoBackend]⟩)⟩

/-! ## Claim C10: routing of non-image modality tags -/

/-- C10: in the mixed partition/dispatch path, an item lands in the text
group exactly when its modality tag is anything other than `"image"`
(including `"audio"` or an unrecognized tag), and lands in the image group
exactly when its tag is exactly `"image"`; the only requests issued are
one text-modality request carrying the text group's items (if non-empty)
followed by one image-modality request carrying the image group's items
(if non-empty). -/
theorem c10_non_image_goes_to_text (backend : Payload → Option (BackendResp β))
    (input_data modalities : List String) (model : String)
    (hlen : input_data.length = modalities.length) :
    (∀ (p : Nat) (d : String),
      (p, d) ∈ (group_by_modality input_data modalities).1 ↔
        ∃ m, input_data[p]? = some d ∧ modalities[p]? = some m ∧ m ≠ "image") ∧
    (∀ (p : Nat) (d : String),
      (p, d) ∈ (group_by_modality input_data modalities).2 ↔
        input_data[p]? = some d ∧ modalities[p]? = some "image") ∧
    (get_embeddings_mixed backend input_data model modalities).2 =
      (if (group_by_modality input_data modalities).1.isEmpty then [] else
        [mkPayload model ((group_by_modality input_data modalities).1.map Prod.snd) "text"]) ++
      (if (group_by_modality input_data modalities).2.isEmpty then [] else
        [mkPayload model ((group_by_modality input_data modalities).2.map Prod.snd) "image"]) := by
  have hne : ¬ (input_data.length ≠ modalities.length) := by omega
  refine ⟨fun p d => ?_, fun p d => ?_, ?_⟩
  · simp only [group_by_modality]
    rw [groupAux_fst_mem_iff]
    constructor
    · rintro ⟨j, m, hj, hm, rfl⟩
      obtain ⟨h1, h2⟩ := (List.getElem?_zip_eq_some).mp hj
      exact ⟨m, by simpa using h1, by simpa using h2, by simpa using hm⟩
    · rintro ⟨m, h1, h2, hm⟩
      exact ⟨p, m, (List.getElem?_zip_eq_some).mpr ⟨h1, h2⟩, by simpa using hm, by omega⟩
  · simp only [group_by_modality]
    rw [groupAux_snd_mem_iff]
    constructor
    · rintro ⟨j, hj, rfl⟩
      obtain ⟨h1, h2⟩ := (List.getElem?_zip_eq_some).mp hj
      exact ⟨by simpa using h1, by simpa using h2⟩
    · rintro ⟨h1, h2⟩
      exact ⟨p, (List.getElem?_zip_eq_some).mpr ⟨h1, h2⟩, by omega⟩
  · have htrace : (get_embeddings_mixed backend input_data model modalities).2 =
        (tasksFor (group_by_modality input_data modalities).1
          (group_by_modality input_data modalities).2).map
          (fun tk => mkPayload model (tk.2.map Prod.snd) tk.1) := by
      simp only [get_embeddings_mixed]
      rw [if_neg hne]
      exact mixedAfterGather_snd _ _ _ _ _
    rw [htrace]
    cases hT : (group_by_modality input_data modalities).1.isEmpty <;>
      cases hI : (group_by_modality input_data modalities).2.isEmpty <;>
        simp [tasksFor, hT, hI]

/-- Witness for C10 at `["a", "b"]` with modalities `["audio", "image"]`:
the `"audio"`-tagged item is grouped as text, the `"image"`-tagged one as
image. -/
theorem c10_non_image_goes_to_text_witness :
    ((["a", "b"] : List String).length = (["audio", "image"] : List String).length) ∧
    ((∀ (p : Nat) (d : String),
      (p, d) ∈ (group_by_modality ["a", "b"] ["audio", "image"]).1 ↔
        ∃ m, (["a", "b"] : List String)[p]? = some d ∧
          (["audio", "image"] : List String)[p]? = some m ∧ m ≠ "image") ∧
    (∀ (p : Nat) (d : String),
      (p, d) ∈ (group_by_modality ["a", "b"] ["audio", "image"]).2 ↔
        (["a", "b"] : List String)[p]? = some d ∧
          (["audio", "image"] : List String)[p]? = some "image") ∧
    (get_embeddings_mixed demoBackend ["a", "b"] "m" ["audio", "image"]).2 =
      (if (group_by_modality ["a", "b"] ["audio", "image"]).1.isEmpty then [] else
        [mkPayload "m" ((group_by_modality ["a", "b"] ["audio", "image"]).1.map Prod.snd)
          "text"]) ++
      (if (group_by_modality ["a", "b"] ["audio", "image"]).2.isEmpty then [] else
        [mkPayload "m" ((group_by_modality ["a", "b"] ["audio", "image"]).2.map Prod.snd)
          "image"])) :=
  ⟨rfl, c10_non_image_goes_to_text demoBackend ["a", "b"] ["audio", "image"] "m" rfl⟩

/-! ## Claim C6: usage counters of the merged response -/

/-- Amended C6: the usage counters of the merged mixed response are both
`len(input_data)` — the item count, computed by the engine itself; the
per-group usage values returned by the backend are discarded, not
summed. -/
theorem c6_usage_is_item_count (backend : Payload → Option (BackendResp β))
    (input_data modalities : List String) (model : String) (resp : MixedResp β)
    (h : (get_embeddings_mixed backend input_data model modalities).1 = .ok resp) :
    resp.prompt_tokens = input_data.length ∧ resp.total_tokens = input_data.length := by
  by_cases hlen : input_data.length ≠ modalities.length
  · rw [get_embeddings_mixed, if_pos hlen] at h
    exact absurd h (by simp)
  · rw [get_embeddings_mixed, if_neg hlen] at h
    cases hg : gatherResults backend model
        (tasksFor (group_by_modality input_data modalities).1
          (group_by_modality input_data modalities).2) with
    | error e =>
      rw [hg] at h
      simp only [mixedAfterGather] at h
      exact absurd h (by simp)
    | ok results =>
      rw [hg] at h
      simp only [mixedAfterGather] at h
      cases hm : mergeAll results
          ((tasksFor (group_by_modality input_data modalities).1
            (group_by_modality input_data modalities).2).map (fun tk => tk.2.map Prod.fst))
          (List.replicate input_data.length none) with
      | error e => rw [hm] at h; exact absurd h (by simp)
      | ok merged =>
        rw [hm] at h
        simp only [Except.ok.injEq] at h
        rw [← h]
        exact ⟨rfl, rfl⟩

/-- Witness for the amended C6 at the concrete batch `["hello"]` with
modality `["text"]` under `demoBackend`. -/
theorem c6_usage_is_item_count_witness :
    (get_embeddings_mixed demoBackend ["hello"] "m" ["text"]).1 =
      .ok ⟨"list", [some ⟨"embedding", 5, 0⟩], "m", 1, 1⟩ ∧
    ((⟨"list", [some ⟨"embedding", 5, 0⟩], "m", 1, 1⟩ : MixedResp Nat).prompt_tokens =
        (["hello"] : List String).length ∧
      (⟨"list", [some ⟨"embedding", 5, 0⟩], "m", 1, 1⟩ : MixedResp Nat).total_tokens =
        (["hello"] : List String).length) :=
  ⟨rfl, c6_usage_is_item_count demoBackend ["hello"] ["text"] "m" _ rfl⟩

/-- Counterexample for C6 as stated: for the batch `["hello"]` under
`demoBackend`, the single issued group request's backend response carries
usage `7`, so the sum of per-group usage counts is `7`, while the merged
response reports `prompt_tokens = total_tokens = 1` (the item count):
the merged usage is not the sum of the backend's per-group usage. -/
theorem c6_usage_counterexample :
    (get_embeddings_mixed demoBackend ["hello"] "m" ["text"]).2 =
      [mkPayload "m" ["hello"] "text"] ∧
    demoBackend (mkPayload "m" ["hello"] "text") =
      some ⟨[⟨"embedding", 5, 0⟩], 7, 7⟩ ∧
    (get_embeddings_mixed demoBackend ["hello"] "m" ["text"]).1 =
      .ok ⟨"list", [some ⟨"embedding", 5, 0⟩], "m", 1, 1⟩ ∧
    (1 : Nat) ≠ 7 :=
  ⟨rfl, rfl, rfl, by decide⟩

/-! ## Claim C5: empty batch -/

/-- Counterexample for C5 as stated: for the empty input batch `[]` the
handler does not return a successful response with empty `data`; the
falsy-input guard rejects it with a 400 `BadRequestError` (while issuing
no backend call). -/
theorem c5_empty_batch_counterexample :
    handle_embeddings (fun _ => (none : Option (BackendResp Nat)))
      (some "m") (some (.jlist [])) none =
      (.err ⟨"Missing \x27input\x27 field in openai_input", "BadRequestError", 400⟩, []) :=
  rfl

/-- Amended C5: the handler rejects the empty batch `[]` as falsy input
with a 400 `Missing input` error before issuing any backend call (empty
trace); the inner engine `get_embeddings_mixed`, called directly on the
empty batch, does return a successful response with `data = []` and
issues no backend call. -/
theorem c5_empty_batch (backend : Payload → Option (BackendResp β))
    (model? : Option String) (modality? : Option String) (model : String) :
    handle_embeddings backend model? (some (.jlist [])) modality? =
      (.err (create_error_response "Missing \x27input\x27 field in openai_input"
        "BadRequestError" 400), []) ∧
    get_embeddings_mixed backend [] model [] =
      (.ok { object := "list", data := [], model := model,
             prompt_tokens := 0, total_tokens := 0 }, []) :=
  ⟨rfl, rfl⟩

/-! ## Claim C9: failure-response shape and code -/

/-- Amended C9: every failure response emitted by the handler path has the
`{error: {message, type, code}}` shape with `code = 400` — including
server-side/internal failures (unanticipated exceptions), which are
distinguished only by the `type` field (the exception class name) and the
`Unexpected error:` message, never by a 500 code. -/
theorem c9_error_code_always_400 (backend : Payload → Option (BackendResp β))
    (model? : Option String) (input? : Option JVal) (modality? : Option String)
    (e : ErrResp)
    (h : (handle_embeddings backend model? input? modality?).1 = .err e ∨
      (∃ msg, async_handler_result (.infinityError msg : PyOutcome β) = .err e) ∨
      (∃ typeName msg,
        async_handler_result (.otherExc typeName msg : PyOutcome β) = .err e)) :
    e.code = 400 := by
  have hauto : ∀ (model : String) (input_data : List String),
      (handleAuto backend model input_data).1 = .err e → e.code = 400 := by
    intro model input_data hh
    rw [handleAuto] at hh
    by_cases hone : ((detect_modalities_per_item input_data).dedup.length == 1) = true
    · rw [if_pos hone] at hh
      rcases hge : get_embeddings backend input_data model
          ((detect_modalities_per_item input_data).headD "text") with ⟨res, calls⟩
      rw [hge] at hh
      cases res with
      | ok r => simp at hh
      | error msg =>
        simp only [HandlerRet.err.injEq] at hh
        rw [← hh]
        rfl
    · rw [if_neg hone] at hh
      rcases hgm : get_embeddings_mixed backend input_data model
          (detect_modalities_per_item input_data) with ⟨res, calls⟩
      rw [hgm] at hh
      cases res with
      | ok r => simp at hh
      | error msg =>
        simp only [HandlerRet.err.injEq] at hh
        rw [← hh]
        rfl
  rcases h with h | h | h
  · cases input? with
    | none =>
      simp only [handle_embeddings, HandlerRet.err.injEq] at h
      rw [← h]
      rfl
    | some inputv =>
      simp only [handle_embeddings] at h
      by_cases hf : jfalsy inputv = true
      · rw [if_pos hf] at h
        simp only [HandlerRet.err.injEq] at h
        rw [← h]
        rfl
      · rw [if_neg hf] at h
        cases modality? with
        | none =>
          simp only [handleEmbInput] at h
          exact hauto _ _ h
        | some em =>
          simp only [handleEmbInput] at h
          by_cases he : (em == "") = true
          · rw [if_pos he] at h
            exact hauto _ _ h
          · rw [if_neg he] at h
            rcases hge : get_embeddings backend (toListInput inputv)
                (model?.getD DEFAULT_MODEL) em with ⟨res, calls⟩
            rw [hge] at h
            cases res with
            | ok r => simp at h
            | error msg =>
              simp only [HandlerRet.err.injEq] at h
              rw [← h]
              rfl
  · obtain ⟨msg, h⟩ := h
    simp only [async_handler_result, HandlerRet.err.injEq] at h
    rw [← h]
    rfl
  · obtain ⟨typeName, msg, h⟩ := h
    simp only [async_handler_result, HandlerRet.err.injEq] at h
    rw [← h]
    rfl

/-- Witness for the amended C9: an unanticipated `RuntimeError` is
reported with code 400. -/
theorem c9_error_code_always_400_witness :
    (async_handler_result (.otherExc "RuntimeError" "boom" : PyOutcome Nat) =
      .err ⟨"Unexpected error: boom", "RuntimeError", 400⟩) ∧
    (⟨"Unexpected error: boom", "RuntimeError", 400⟩ : ErrResp).code = 400 :=
  ⟨rfl, c9_error_code_always_400 (fun _ => (none : Option (BackendResp Nat)))
    none none none _ (Or.inr (Or.inr ⟨"RuntimeError", "boom", rfl⟩))⟩

/-- Counterexample for C9 as stated: a server-side/internal-class failure
(an unanticipated `RuntimeError` reaching the catch-all clause) is emitted
with `code = 400`, not 500 — no call site of `create_error_response`
ever passes 500. -/
theorem c9_internal_not_500_counterexample :
    async_handler_result (.otherExc "RuntimeError" "boom" : PyOutcome Nat) =
      .err ⟨"Unexpected error: boom", "RuntimeError", 400⟩ ∧
    (400 : Nat) ≠ 500 :=
  ⟨rfl, by decide⟩

/-! ## Claim C4: audio modality -/

/-- C4, evaluated against the code: the validation layer
(`validate_item_for_modality`, used by `embedding_service`) does reject
every audio-tagged item with a `NotImplementedError` whose message names
the supported set `{text, image}`; but the live handler path
(`handler.py` → `InfinityClient.get_embeddings`) performs no such check —
for modality `"audio"` it builds a payload without a `modality` key,
byte-identical to the text payload, forwards it to the backend, and
returns the backend's success. -/
theorem c4_audio_paths :
    (∀ (o : ImgOracles) (hasClient : Bool) (item : Item) (idx : Nat),
      validate_item_for_modality o hasClient item "audio" idx =
        .error (.notImplementedError
          ("Item at index " ++ toString idx ++ ": " ++ audioNotImplementedMsg))) ∧
    containsSub audioNotImplementedMsg.toList "\x27text\x27, \x27image\x27".toList = true ∧
    (∀ (model : String) (inp : List String),
      mkPayload model inp "audio" = mkPayload model inp "text") ∧
    handle_embeddings demoBackend (some "m") (some (.jlist ["audio data"]))
        (some "audio") =
      (.okSingle ⟨[⟨"embedding", 10, 0⟩], 7, 7⟩,
        [⟨"m", ["audio data"], "float", none⟩]) :=
  ⟨fun o hasClient item idx => rfl, by decide, fun model inp => rfl, rfl⟩

/-! ## Claim C8: malformed base64 rejection -/

/-- C8: for every non-URL string whose base64/image decoding fails at any
stage (regex mismatch on a `data:` string, undecodable base64, or valid
base64 whose bytes are not an image), image validation returns the
recoverable `ValueError` with the fixed not-an-image message — never an
unhandled fault (the function is total) and never a silently empty
success; the index-annotating wrapper preserves the `ValueError` class. -/
theorem c8_malformed_base64_rejected (o : ImgOracles) (s : String)
    (hasClient : Bool) (idx : Nat)
    (hurl : _is_url s = false)
    (hfail : ∀ payload,
      (if pyStartsWith s "data:" then dataUriMatch s else some s) = some payload →
      o.b64decode payload = none ∨
        ∀ bs, o.b64decode payload = some bs → o.imageOpen bs = none) :
    validate_image_item o hasClient (.str s) =
      .error (.valueError invalidImageFormatMsg) ∧
    validate_item_for_modality o hasClient (.str s) "image" idx =
      .error (.valueError
        ("Item at index " ++ toString idx ++ ": " ++ invalidImageFormatMsg)) := by
  have hb64 : _is_base64_image o s = none := by
    cases hx : (if pyStartsWith s "data:" then dataUriMatch s else some s) with
    | none => simp [_is_base64_image, hx]
    | some payload =>
      rcases hfail payload hx with hdec | himg
      · simp [_is_base64_image, hx, hdec]
      · cases hbs : o.b64decode payload with
        | none => simp [_is_base64_image, hx, hbs]
        | some bs => simp [_is_base64_image, hx, hbs, himg bs hbs]
  have hmain : validate_image_item o hasClient (.str s) =
      .error (.valueError invalidImageFormatMsg) := by
    simp only [validate_image_item, hurl, Bool.false_eq_true, if_false, hb64]
  refine ⟨hmain, ?_⟩
  simp only [validate_item_for_modality,
    show ("image" == "text") = false from rfl,
    show ("image" == "image") = true from rfl, Bool.false_eq_true, if_false, if_true,
    hmain]
  rfl

/-- Witness for C8 at the concrete corrupted string `"AAAA%%"` (wrong
alphabet) with oracles on which every decode fails. -/
theorem c8_malformed_base64_rejected_witness :
    _is_url "AAAA%%" = false ∧
    (∀ payload,
      (if pyStartsWith "AAAA%%" "data:" then dataUriMatch "AAAA%%" else some "AAAA%%") =
        some payload →
      (⟨fun _ => none, fun _ => none, fun _ => none⟩ : ImgOracles).b64decode payload =
          none ∨
        ∀ bs, (⟨fun _ => none, fun _ => none, fun _ => none⟩ : ImgOracles).b64decode
            payload = some bs →
          (⟨fun _ => none, fun _ => none, fun _ => none⟩ : ImgOracles).imageOpen bs =
            none) ∧
    (validate_image_item ⟨fun _ => none, fun _ => none, fun _ => none⟩ false
        (.str "AAAA%%") = .error (.valueError invalidImageFormatMsg) ∧
      validate_item_for_modality ⟨fun _ => none, fun _ => none, fun _ => none⟩ false
          (.str "AAAA%%") "image" 3 =
        .error (.valueError ("Item at index " ++ toString 3 ++ ": " ++
          invalidImageFormatMsg))) :=
  ⟨rfl, fun _ _ => Or.inl rfl,
    c8_malformed_base64_rejected ⟨fun _ => none, fun _ => none, fun _ => none⟩
      "AAAA%%" false 3 rfl (fun _ _ => Or.inl rfl)⟩

end WorkerEmb

